import Mathlib

/-!
Shallow embedding of the bloomfieldHours store-table component and its
service worker (src/service-worker.js), together with proofs about the
filtering, parsing, sorting, persistence and caching behaviour described
in the specification.

Conventions of the embedding:
* a JS `Date` produced by `parseTimeToJSDate` is represented by the number
  of minutes from midnight of the shared current calendar date, as an
  `Option Int`, `none` standing for an Invalid Date (NaN time value);
* JS exceptions (the TypeError thrown when `substring` is read from
  `undefined`) are represented by `Except Unit`;
* JS objects used as string-keyed maps (`favorites`, `store.hours`,
  `localStorage`) are association lists in insertion order; the object
  spread `{ ...m, [k]: v }` and `localStorage.setItem` are both the
  insertion-order-preserving upsert `upsert`.
-/

/-- One `{ open, close }` record of a store's `hours` object.  The field
names `open`/`close` of the source are Lean keywords, hence `openTime` and
`closeTime`. -/
structure HoursEntry where
  openTime : String
  closeTime : String
deriving DecidableEq

/-- `type Store = { name, hours }` where `hours` maps a day name to its
entry. -/
structure Store where
  name : String
  hours : List (String × HoursEntry)
deriving DecidableEq

/-- A row of `filteredData`: the store spread together with the displayed
`favorite` flag (`{ ...store, favorite: favorites[store.name] || false }`). -/
structure FavStore where
  name : String
  hours : List (String × HoursEntry)
  favorite : Bool
deriving DecidableEq

/-- JS property access on a string-keyed object represented as an
association list: the first binding wins. -/
def alookup {β : Type} : List (String × β) → String → Option β
  | [], _ => none
  | (a, b) :: rest, k => if a = k then some b else alookup rest k

/-- Insertion-order-preserving upsert: JS object spread `{ ...m, [k]: v }`
and `localStorage.setItem` both overwrite an existing key in place and
append a fresh key at the end. -/
def upsert {β : Type} (m : List (String × β)) (k : String) (v : β) :
    List (String × β) :=
  if (alookup m k).isSome then
    m.map (fun (a, b) => if a = k then (k, v) else (a, b))
  else m ++ [(k, v)]

/-- Displayed favourite flag: JS `favorites[store.name] || false`
(`undefined` is falsy). -/
def favTruthy (m : List (String × Bool)) (k : String) : Bool :=
  (alookup m k).getD false

/-- Value of a decimal digit character. -/
def digitVal (c : Char) : Nat := c.toNat - 48

/-- Decimal digit test on code points (JS digits `0`-`9`). -/
def isDigitB (c : Char) : Bool :=
  decide (48 ≤ c.toNat) && decide (c.toNat ≤ 57)

/-- ASCII whitespace test, for the leading trim performed by JS
`parseInt`. -/
def isWsB (c : Char) : Bool :=
  decide (c.toNat = 32) || (decide (9 ≤ c.toNat) && decide (c.toNat ≤ 13))

/-- Fold the longest leading digit run onto an accumulator (the digit loop
of JS `parseInt`). -/
def digitsAcc (acc : Nat) : List Char → Nat
  | [] => acc
  | c :: cs => if isDigitB c then digitsAcc (acc * 10 + digitVal c) cs else acc

/-- Digit scan of JS `parseInt`: `none` (NaN) when the first character is
not a digit. -/
def digitsNum : List Char → Option Nat
  | [] => none
  | c :: cs => if isDigitB c then some (digitsAcc (digitVal c) cs) else none

/-- JS `parseInt(s, 10)`: trim leading whitespace, accept an optional sign,
then read the longest digit run; `none` is NaN. -/
def parseIntJS (s : List Char) : Option Int :=
  match s.dropWhile isWsB with
  | [] => none
  | c :: rest =>
    if c = '-' then (digitsNum rest).map (fun n => -(n : Int))
    else if c = '+' then (digitsNum rest).map (fun n => (n : Int))
    else (digitsNum (c :: rest)).map (fun n => (n : Int))

/-- JS `s.substring(a, b)` for `a ≤ b`: clamp to the string and slice. -/
def jsSubstring (s : List Char) (a b : Nat) : List Char := (s.take b).drop a

/-- The `Date` built by `parseTimeToJSDate` from a present string:
`new Date(year, month, date, parseInt(t.substring(0,2)), parseInt(t.substring(2,4)))`,
as minutes from midnight of the current date; `none` is an Invalid Date
(a NaN hour or minute argument). -/
def jsDateOf (time : String) : Option Int :=
  match parseIntJS (jsSubstring time.data 0 2),
        parseIntJS (jsSubstring time.data 2 4) with
  | some h, some m => some (h * 60 + m)
  | _, _ => none

/-- `parseTimeToJSDate` as called by the component: its argument is
`undefined` exactly when the store has no hours entry for the selected day,
and then `time.substring(0, 2)` throws a TypeError, modelled as
`.error ()`. -/
def parseTimeToJSDate : Option String → Except Unit (Option Int)
  | none => .error ()
  | some time => .ok (jsDateOf time)

/-- JS `>=` on two Dates: comparison with an Invalid Date (NaN) is false. -/
def jsGe : Option Int → Option Int → Bool
  | some a, some b => decide (b ≤ a)
  | _, _ => false

/-- JS `<=` on two Dates. -/
def jsLe : Option Int → Option Int → Bool
  | some a, some b => decide (a ≤ b)
  | _, _ => false

/-- JS `<` on two Dates (used to state the specification's half-open
window). -/
def jsLt : Option Int → Option Int → Bool
  | some a, some b => decide (a < b)
  | _, _ => false

/-- `a.getTime() - b.getTime()`: NaN propagates through the subtraction. -/
def jsSub : Option Int → Option Int → Option Int
  | some a, some b => some (a - b)
  | _, _ => none

/-- JS `getHours()` of a valid Date modelled as minutes from midnight. -/
def dateGetHours (t : Option Int) : Option Int := t.map (fun v => v / 60 % 24)

/-- JS `getMinutes()` of a valid Date modelled as minutes from midnight. -/
def dateGetMinutes (t : Option Int) : Option Int := t.map (fun v => v % 60)

/-- The component state read by `filteredData` and the columns, together
with the ambient clock (the values `getCurrentDay()` and
`getCurrentTime()` return). -/
structure FilterState where
  search : String
  dayFilter : String
  openFilter : String
  onlyFavs : String
  favorites : List (String × Bool)
  currentDay : String
  currentTime : String

/-- `dayFilter === "Current Day" ? getCurrentDay() : dayFilter`. -/
def selectedDay (st : FilterState) : String :=
  if st.dayFilter = "Current Day" then st.currentDay else st.dayFilter

/-- Whether `needle` is a leading block of `hay` (helper for `includes`). -/
def leadMatch : List Char → List Char → Bool
  | [], _ => true
  | _ :: _, [] => false
  | a :: as, b :: bs => a == b && leadMatch as bs

/-- JS `hay.includes(needle)`: contiguous substring containment. -/
def strIncludes (needle : List Char) : List Char → Bool
  | [] => leadMatch needle []
  | c :: rest => leadMatch needle (c :: rest) || strIncludes needle rest

/-- JS `toLowerCase`, character by character. -/
def lcStr (s : String) : List Char := s.data.map Char.toLower

/-- The Open Now window test of `filteredData` (when the filter is
active): look up today's entry — `store.hours[today] || {}` destructures to
`undefined` `open`/`close` when absent — parse the three times in source
order, and test `parsedNow >= parsedOpen && parsedNow <= parsedClose`. -/
def openNowCheck (st : FilterState) (store : Store) : Except Unit Bool := do
  let entry := alookup store.hours (selectedDay st)
  let parsedOpen ← parseTimeToJSDate (entry.map HoursEntry.openTime)
  let parsedClose ← parseTimeToJSDate (entry.map HoursEntry.closeTime)
  let parsedNow ← parseTimeToJSDate (some st.currentTime)
  pure (jsGe parsedNow parsedOpen && jsLe parsedNow parsedClose)

/-- The filter callback of `filteredData`: the favourites guard, then the
search guard, then the Open Now guard, in source order with JS
short-circuiting. -/
def storePred (st : FilterState) (store : Store) : Except Unit Bool :=
  if st.onlyFavs == "Favorites" && !(favTruthy st.favorites store.name) then
    .ok false
  else if st.search != "" && !(strIncludes (lcStr st.search) (lcStr store.name)) then
    .ok false
  else if st.openFilter == "Open Now" then
    openNowCheck st store
  else
    .ok true

/-- `{ ...store, favorite: favorites[store.name] || false }`. -/
def decorate (favorites : List (String × Bool)) (s : Store) : FavStore :=
  ⟨s.name, s.hours, favTruthy favorites s.name⟩

/-- `Array.prototype.filter` with a callback that may throw: elements are
visited left to right and an exception aborts the pass. -/
def filterE (p : Store → Except Unit Bool) : List Store → Except Unit (List Store)
  | [] => .ok []
  | s :: rest => do
    let b ← p s
    let tail ← filterE p rest
    pure (if b then s :: tail else tail)

/-- `filteredData`: filter `storeData` by the three guards, then decorate
each kept store with its favourite flag. -/
def filteredData (st : FilterState) (data : List Store) :
    Except Unit (List FavStore) :=
  (filterE (storePred st) data).map (List.map (decorate st.favorites))

/-- The Hours column comparator: parse each row's closing time for the
selected day (throwing on a missing entry) and subtract the time values. -/
def hoursSortingFn (st : FilterState) (a b : FavStore) :
    Except Unit (Option Int) := do
  let aClosing ← parseTimeToJSDate
    ((alookup a.hours (selectedDay st)).map HoursEntry.closeTime)
  let bClosing ← parseTimeToJSDate
    ((alookup b.hours (selectedDay st)).map HoursEntry.closeTime)
  pure (jsSub aClosing bClosing)

/-- `localStorage.getItem`. -/
def storageGet (storage : List (String × String)) (k : String) : Option String :=
  alookup storage k

/-- Characters of one `"name":boolean` member of the stringified favorites
object. -/
def pairChars (p : String × Bool) : List Char :=
  '"' :: (p.1.data ++ '"' :: ':' ::
    (if p.2 then ['t', 'r', 'u', 'e'] else ['f', 'a', 'l', 's', 'e']))

/-- Members of the object literal separated by commas, ending with the
closing brace. -/
def bodyChars : List (String × Bool) → List Char
  | [] => ['\x7d']
  | [p] => pairChars p ++ ['\x7d']
  | p :: q :: rest => pairChars p ++ ',' :: bodyChars (q :: rest)

/-- `JSON.stringify(favorites)` for a flat string-to-boolean object whose
keys need no escape sequences. -/
def stringifyFavs (m : List (String × Bool)) : String :=
  List.asString ('\x7b' :: bodyChars m)

/-- Scan a JSON string body up to its closing quote. -/
def scanKey : List Char → Option (List Char × List Char)
  | [] => none
  | c :: cs =>
    if c = '"' then some ([], cs)
    else (scanKey cs).map (fun r => (c :: r.1, r.2))

/-- Parse the literal `true` or `false`. -/
def parseBoolTok : List Char → Option (Bool × List Char)
  | 't' :: 'r' :: 'u' :: 'e' :: cs => some (true, cs)
  | 'f' :: 'a' :: 'l' :: 's' :: 'e' :: cs => some (false, cs)
  | _ => none

/-- Parse the members of a flat string-to-boolean object; the fuel bounds
the number of members. -/
def parseMembers : Nat → List Char → Option (List (String × Bool) × List Char)
  | 0, _ => none
  | fuel + 1, cs =>
    match cs with
    | '"' :: cs1 =>
      match scanKey cs1 with
      | none => none
      | some (k, cs2) =>
        match cs2 with
        | ':' :: cs3 =>
          match parseBoolTok cs3 with
          | none => none
          | some (b, cs4) =>
            match cs4 with
            | ',' :: cs5 =>
              (parseMembers fuel cs5).map
                (fun r => ((List.asString k, b) :: r.1, r.2))
            | '\x7d' :: cs5 => some ([(List.asString k, b)], cs5)
            | _ => none
        | _ => none
    | _ => none

/-- `JSON.parse` restricted to the flat string-to-boolean objects this
component stores under the `favorites` key. -/
def parseFavs (s : String) : Option (List (String × Bool)) :=
  match s.data with
  | [] => none
  | c :: cs =>
    if c = '\x7b' then
      if cs = ['\x7d'] then some []
      else
        match parseMembers cs.length cs with
        | some (m, rest) => if rest = [] then some m else none
        | none => none
    else none

/-- The `useState` initialiser of `favorites`:
`JSON.parse(localStorage.getItem("favorites") ?? "\x7b\x7d")`; a parse
failure is a thrown SyntaxError. -/
def initFavorites (storage : List (String × String)) :
    Except Unit (List (String × Bool)) :=
  match parseFavs ((storageGet storage "favorites").getD "\x7b\x7d") with
  | some m => .ok m
  | none => .error ()

/-- The component state a favourite toggle touches: the `favorites` map
and `localStorage`. -/
structure AppState where
  favorites : List (String × Bool)
  storage : List (String × String)

/-- The favourites-cell click handler: flip the truthiness of
`favorites[storeName]`, write the stringified map under the `favorites`
key, and install the new map. -/
def toggleFavorite (s : AppState) (storeName : String) : AppState :=
  let isFavorite := alookup s.favorites storeName
  let updatedFavorites := upsert s.favorites storeName (!(isFavorite.getD false))
  ⟨updatedFavorites,
    upsert s.storage "favorites" (stringifyFavs updatedFavorites)⟩

/-- JS `response || fetch(event.request)`: a cached `Response` object is
always truthy, a cache miss resolves to `undefined`. -/
def jsOrElse {β : Type} : Option β → β → β
  | some r, _ => r
  | none, b => b

/-- The service worker fetch handler: respond with the cache match when
there is one, otherwise with the network fetch. -/
def handleFetch {α β : Type} (cacheMatch : α → Option β) (netFetch : α → β)
    (req : α) : β :=
  jsOrElse (cacheMatch req) (netFetch req)

/-- Spec-side predicate (claim C1's wording): the current time lies in the
half-open window `[open, close)` of the selected day's entry. -/
def specHalfOpenPass (st : FilterState) (store : Store) : Bool :=
  match alookup store.hours (selectedDay st) with
  | some e =>
    jsLe (jsDateOf e.openTime) (jsDateOf st.currentTime) &&
      jsLt (jsDateOf st.currentTime) (jsDateOf e.closeTime)
  | none => false

/-- Spec-side favourites predicate (claim C2): inactive filter, or the
store is a favourite. -/
def specFavPass (st : FilterState) (store : Store) : Bool :=
  st.onlyFavs != "Favorites" || favTruthy st.favorites store.name

/-- Spec-side search predicate (claims C2 and C5): the lowercased name
contains the lowercased search string (every name contains the empty
string). -/
def specSearchPass (st : FilterState) (store : Store) : Bool :=
  strIncludes (lcStr st.search) (lcStr store.name)

/-- Spec-side open-now predicate (claim C2): inactive filter, or the
window test succeeds. -/
def specOpenPass (st : FilterState) (store : Store) : Bool :=
  st.openFilter != "Open Now" ||
    (match openNowCheck st store with
     | .ok b => b
     | .error _ => false)

/-- Binding a successful `Except` computation just applies the
continuation. -/
@[simp]
theorem exceptOkBind {ε α β : Type} (a : α) (f : α → Except ε β) :
    (Except.ok a >>= f : Except ε β) = f a := rfl

/-- Character injectivity through code points. -/
theorem charEqOfToNatEq {a b : Char} (h : a.toNat = b.toNat) : a = b :=
  Char.eq_of_val_eq (UInt32.ext h)

/-- Filter state for the claim C1 counterexample: Open Now on a Monday at
exactly closing time. -/
def stC1 : FilterState := ⟨"", "Monday", "Open Now", "All", [], "Monday", "1700"⟩

/-- Store for the claim C1 counterexample: closes Monday at 17:00. -/
def storeC1 : Store := ⟨"Espresso a Mano", [("Monday", ⟨"0900", "1700"⟩)]⟩

/-- Claim C1, as stated, is false: at 17:00 sharp the code's Open Now test
accepts the store (it uses `parsedNow <= parsedClose`), while the claimed
half-open window `[open, close)` rejects it. -/
theorem c1_counterexample :
    openNowCheck stC1 storeC1 = .ok true ∧ specHalfOpenPass stC1 storeC1 = false :=
  ⟨rfl, rfl⟩

/-- Claim C1 (amended): for a store with an hours entry for the selected
day whose parsed open, close and current times are valid, the Open Now
predicate passes exactly when the current time lies in the closed interval
`[open, close]`: parsed open ≤ parsed now and parsed now ≤ parsed close. -/
theorem c1_open_now_closed_window (st : FilterState) (store : Store)
    (e : HoursEntry) (he : alookup store.hours (selectedDay st) = some e)
    (a c n : Int) (ha : jsDateOf e.openTime = some a)
    (hc : jsDateOf e.closeTime = some c) (hn : jsDateOf st.currentTime = some n) :
    openNowCheck st store = .ok (decide (a ≤ n ∧ n ≤ c)) := by
  simp [openNowCheck, he, parseTimeToJSDate, ha, hc, hn, jsGe, jsLe,
    Bool.and_comm, Bool.decide_and]

theorem c1_open_now_closed_window_witness :
    (alookup storeC1.hours (selectedDay stC1) = some ⟨"0900", "1700"⟩) ∧
      openNowCheck stC1 storeC1 = .ok (decide ((540 : Int) ≤ 1020 ∧ (1020 : Int) ≤ 1020)) :=
  ⟨rfl, c1_open_now_closed_window stC1 storeC1 ⟨"0900", "1700"⟩ rfl 540 1020 1020 rfl rfl rfl⟩

/-- Claim C9's predicate input: Open Now on a day for which the store has
no hours entry. -/
def stC9 : FilterState := ⟨"", "Tuesday", "Open Now", "All", [], "Tuesday", "1200"⟩

/-- Store for claim C9: hours only on Monday. -/
def storeC9 : Store := ⟨"Crazy Mocha", [("Monday", ⟨"0900", "1700"⟩)]⟩

/-- Claim C9 meets a code bug: with the Open Now filter active, a store
without an hours entry for the selected day does not fall through the
window comparison — `store.hours[today] || \x7b\x7d` leaves `open`
undefined and `parseTimeToJSDate` throws a TypeError reading
`substring`, aborting the whole filter pass. -/
theorem c9_missing_entry_throws :
    openNowCheck stC9 storeC9 = .error () ∧
      storePred stC9 storeC9 = .error () ∧
      filteredData stC9 [storeC9] = .error () :=
  ⟨rfl, rfl, rfl⟩

/-- Claim C6: on rows with an hours entry for the selected day and
parseable closing times, the Hours comparator returns the difference of
the closing time values: negative when the first closes earlier, zero
when both close together, positive when the first closes later. -/
theorem c6_hours_comparator (st : FilterState) (a b : FavStore)
    (ea eb : HoursEntry) (ha : alookup a.hours (selectedDay st) = some ea)
    (hb : alookup b.hours (selectedDay st) = some eb) (x y : Int)
    (hx : jsDateOf ea.closeTime = some x) (hy : jsDateOf eb.closeTime = some y) :
    hoursSortingFn st a b = .ok (some (x - y)) ∧
      (x - y < 0 ↔ x < y) ∧ (x - y = 0 ↔ x = y) ∧ (0 < x - y ↔ y < x) := by
  refine ⟨?_, by omega, by omega, by omega⟩
  simp [hoursSortingFn, ha, hb, parseTimeToJSDate, hx, hy, jsSub]

theorem c6_hours_comparator_witness :
    hoursSortingFn stC1 ⟨"A", [("Monday", ⟨"0900", "1700"⟩)], false⟩
        ⟨"B", [("Monday", ⟨"1000", "2200"⟩)], false⟩ = .ok (some (1020 - 1320)) ∧
      ((1020 : Int) - 1320 < 0 ↔ (1020 : Int) < 1320) ∧
      ((1020 : Int) - 1320 = 0 ↔ (1020 : Int) = 1320) ∧
      ((0 : Int) < 1020 - 1320 ↔ (1320 : Int) < 1020) :=
  c6_hours_comparator stC1 ⟨"A", [("Monday", ⟨"0900", "1700"⟩)], false⟩
    ⟨"B", [("Monday", ⟨"1000", "2200"⟩)], false⟩ ⟨"0900", "1700"⟩
    ⟨"1000", "2200"⟩ rfl rfl 1020 1320 rfl rfl

/-- Claim C7: the fetch handler is cache-first — a cache hit is answered
from the cache, a miss from the network. -/
theorem c7_cache_first {α β : Type} (cacheMatch : α → Option β)
    (netFetch : α → β) (req : α) :
    (∀ r, cacheMatch req = some r → handleFetch cacheMatch netFetch req = r) ∧
      (cacheMatch req = none → handleFetch cacheMatch netFetch req = netFetch req) := by
  constructor
  · intro r hr; simp [handleFetch, hr, jsOrElse]
  · intro hr; simp [handleFetch, hr, jsOrElse]

theorem c7_cache_first_witness :
    handleFetch (fun _ : Nat => some 7) (fun _ => 9) 0 = 7 ∧
      handleFetch (fun _ : Nat => (none : Option Nat)) (fun _ => 9) 0 = 9 :=
  ⟨(c7_cache_first (fun _ : Nat => some 7) (fun _ => 9) 0).1 7 rfl,
    (c7_cache_first (fun _ : Nat => (none : Option Nat)) (fun _ => 9) 0).2 rfl⟩

deriving instance DecidableEq for Except

/-- Binding a failed `Except` computation propagates the failure. -/
@[simp]
theorem exceptErrorBind {ε α β : Type} (e : ε) (f : α → Except ε β) :
    (Except.error e >>= f : Except ε β) = .error e := rfl

/-- Every string includes the empty string. -/
theorem strIncludesNil (l : List Char) : strIncludes [] l = true := by
  cases l <;> simp [strIncludes, leadMatch]

/-- Lowercasing the empty string. -/
theorem lcStrEmpty : lcStr "" = [] := rfl

/-- The filter callback, on a success, returns exactly the conjunction of
the three independent spec-side predicates. -/
theorem storePredSpec (st : FilterState) (store : Store) (b : Bool)
    (h : storePred st store = .ok b) :
    b = (specFavPass st store && specSearchPass st store && specOpenPass st store) := by
  unfold storePred at h
  by_cases hfa : st.onlyFavs = "Favorites" <;>
    by_cases hft : favTruthy st.favorites store.name = true <;>
      by_cases hse : st.search = "" <;>
        by_cases hinc : strIncludes (lcStr st.search) (lcStr store.name) = true <;>
          by_cases hof : st.openFilter = "Open Now" <;>
            simp [hfa, hft, hse, hinc, hof, specFavPass, specSearchPass,
              specOpenPass, lcStrEmpty, strIncludesNil, bne] at h ⊢ <;>
              simp_all

/-- When the callback succeeds pointwise, throwing `filter` coincides with
pure `List.filter`. -/
theorem filterEOk (p : Store → Except Unit Bool) (q : Store → Bool)
    (data : List Store) (hpq : ∀ s ∈ data, p s = .ok (q s)) :
    filterE p data = .ok (data.filter q) := by
  induction data with
  | nil => rfl
  | cons s rest ih =>
    have hs := hpq s (List.mem_cons_self s rest)
    have hrest := ih (fun x hx => hpq x (List.mem_cons_of_mem _ hx))
    simp only [filterE, hs, hrest, exceptOkBind, List.filter_cons]
    cases q s <;> rfl

/-- A successful throwing `filter` returns an order-preserving sublist. -/
theorem filterESublist (p : Store → Except Unit Bool) (data l : List Store)
    (h : filterE p data = .ok l) : l.Sublist data := by
  induction data generalizing l with
  | nil =>
    simp only [filterE] at h
    rw [← Except.ok.inj h]
  | cons s rest ih =>
    simp only [filterE] at h
    cases hp : p s with
    | error e => rw [hp] at h; simp at h
    | ok b =>
      rw [hp, exceptOkBind] at h
      cases hrest : filterE p rest with
      | error e => rw [hrest] at h; simp at h
      | ok tail =>
        rw [hrest, exceptOkBind] at h
        have htail := ih tail hrest
        cases b with
        | false =>
          have hl : tail = l := by
            have := Except.ok.inj h
            simpa using this
          rw [← hl]
          exact htail.cons s
        | true =>
          have hl : s :: tail = l := by
            have := Except.ok.inj h
            simpa using this
          rw [← hl]
          exact htail.cons₂ s

/-- Claim C2: when no store's guard evaluation throws, the filtered list
keeps exactly the stores passing the favourites, search and open-now
predicates, each evaluated independently of the others, decorated with
their favourite flags. -/
theorem c2_filter_conjunction (st : FilterState) (data : List Store)
    (h : ∀ s ∈ data, storePred st s ≠ .error ()) :
    filteredData st data =
      .ok ((data.filter (fun s =>
        specFavPass st s && specSearchPass st s && specOpenPass st s)).map
          (decorate st.favorites)) := by
  have hok : ∀ s ∈ data, storePred st s =
      .ok (specFavPass st s && specSearchPass st s && specOpenPass st s) := by
    intro s hs
    cases hc : storePred st s with
    | error e => cases e; exact absurd hc (h s hs)
    | ok b => rw [← storePredSpec st s b hc]
  unfold filteredData
  rw [filterEOk _ _ _ hok]
  rfl

/-- Store fixture for the claim C2, C5 and C8 witnesses. -/
def dataC2 : List Store :=
  [⟨"Espresso a Mano", [("Monday", ⟨"0900", "1700"⟩)]⟩,
   ⟨"Crazy Mocha", [("Tuesday", ⟨"0800", "2000"⟩)]⟩]

/-- Filter state for the claim C2 witness: favourites filter active and a
text search. -/
def stC2 : FilterState :=
  ⟨"mo", "Monday", "All", "Favorites", [("Crazy Mocha", true)], "Monday", "1200"⟩

theorem c2_filter_conjunction_witness :
    filteredData stC2 dataC2 =
      .ok ((dataC2.filter (fun s =>
        specFavPass stC2 s && specSearchPass stC2 s && specOpenPass stC2 s)).map
          (decorate stC2.favorites)) :=
  c2_filter_conjunction stC2 dataC2 (by decide)

/-- The filter callback when only the text search can reject. -/
theorem storePredSearchOnly (st : FilterState) (store : Store)
    (hfav : st.onlyFavs ≠ "Favorites") (hopen : st.openFilter ≠ "Open Now") :
    storePred st store = .ok (specSearchPass st store) := by
  unfold storePred
  by_cases hse : st.search = "" <;>
    by_cases hinc : strIncludes (lcStr st.search) (lcStr store.name) = true <;>
      simp [hfav, hopen, hse, hinc, specSearchPass, lcStrEmpty,
        strIncludesNil, bne]

/-- Claim C5: with the favourites and open-now filters inactive, the
filtered list keeps exactly the stores whose lowercased name contains the
lowercased search string (every store when the search is empty). -/
theorem c5_search_filter (st : FilterState) (data : List Store)
    (hfav : st.onlyFavs ≠ "Favorites") (hopen : st.openFilter ≠ "Open Now") :
    filteredData st data =
      .ok ((data.filter (fun s => specSearchPass st s)).map
        (decorate st.favorites)) := by
  unfold filteredData
  rw [filterEOk _ _ _ (fun s _ => storePredSearchOnly st s hfav hopen)]
  rfl

/-- Filter state for the claim C5 witness: only a text search, in capital
letters to exercise the case-insensitivity. -/
def stC5 : FilterState := ⟨"MOCHA", "Monday", "All", "All", [], "Monday", "1200"⟩

theorem c5_search_filter_witness :
    filteredData stC5 dataC2 =
      .ok ((dataC2.filter (fun s => specSearchPass stC5 s)).map
        (decorate stC5.favorites)) :=
  c5_search_filter stC5 dataC2 (by decide) (by decide)

/-- Undoing the decoration recovers the stores themselves. -/
theorem mapUndecorate (favorites : List (String × Bool)) (l0 : List Store) :
    (List.map (decorate favorites) l0).map
      (fun fs => (⟨fs.name, fs.hours⟩ : Store)) = l0 := by
  induction l0 with
  | nil => rfl
  | cons s rest ih =>
    show (⟨s.name, s.hours⟩ : Store) :: _ = s :: rest
    rw [ih]

/-- Claim C8: a successful recomputation of the filtered list is an
order-preserving sublist of the input store array, each kept element
decorated with its favourite flag; the input array, a pure value in this
embedding, is left unchanged by the computation. -/
theorem c8_no_mutation (st : FilterState) (data : List Store)
    (l : List FavStore) (h : filteredData st data = .ok l) :
    (l.map (fun fs => (⟨fs.name, fs.hours⟩ : Store))).Sublist data ∧
      ∀ fs ∈ l, fs.favorite = favTruthy st.favorites fs.name := by
  unfold filteredData at h
  cases hf : filterE (storePred st) data with
  | error e => rw [hf] at h; simp [Except.map] at h
  | ok l0 =>
    rw [hf] at h
    have hl : List.map (decorate st.favorites) l0 = l := by
      simpa [Except.map] using h
    rw [← hl]
    constructor
    · rw [mapUndecorate]
      exact filterESublist _ data l0 hf
    · intro fs hfs
      rcases List.mem_map.mp hfs with ⟨s, _, rfl⟩
      rfl

theorem c8_no_mutation_witness :
    (([(⟨"Crazy Mocha", [("Tuesday", ⟨"0800", "2000"⟩)], false⟩ : FavStore)].map
        (fun fs => (⟨fs.name, fs.hours⟩ : Store))).Sublist dataC2) ∧
      ∀ fs ∈ [(⟨"Crazy Mocha", [("Tuesday", ⟨"0800", "2000"⟩)], false⟩ : FavStore)],
        fs.favorite = favTruthy stC5.favorites fs.name :=
  c8_no_mutation stC5 dataC2
    [⟨"Crazy Mocha", [("Tuesday", ⟨"0800", "2000"⟩)], false⟩] (by decide)

/-- In-place update rewrites exactly the binding of the written key. -/
theorem alookupMapUpdateSelf {β : Type} (m : List (String × β)) (k : String)
    (v : β) :
    alookup (m.map (fun (a, b) => if a = k then (k, v) else (a, b))) k =
      if (alookup m k).isSome then some v else none := by
  induction m with
  | nil => rfl
  | cons p rest ih =>
    obtain ⟨a, b⟩ := p
    show alookup ((if a = k then (k, v) else (a, b)) :: List.map _ rest) k = _
    by_cases hp : a = k
    · rw [if_pos hp]
      subst hp
      simp [alookup]
    · rw [if_neg hp]
      simp [alookup, hp, ih]

/-- In-place update of one key leaves other lookups unchanged. -/
theorem alookupMapUpdateOther {β : Type} (m : List (String × β))
    (k q : String) (v : β) (h : q ≠ k) :
    alookup (m.map (fun (a, b) => if a = k then (k, v) else (a, b))) q =
      alookup m q := by
  induction m with
  | nil => rfl
  | cons p rest ih =>
    obtain ⟨a, b⟩ := p
    show alookup ((if a = k then (k, v) else (a, b)) :: List.map _ rest) q = _
    by_cases hp : a = k
    · rw [if_pos hp]
      subst hp
      simp [alookup, Ne.symm h, ih]
    · rw [if_neg hp]
      simp [alookup, ih]

/-- Appending a binding for an absent key makes it found. -/
theorem alookupAppendSelf {β : Type} (m : List (String × β)) (k : String)
    (v : β) (h : alookup m k = none) : alookup (m ++ [(k, v)]) k = some v := by
  induction m with
  | nil => simp [alookup]
  | cons p rest ih =>
    obtain ⟨a, b⟩ := p
    by_cases hp : a = k
    · simp [alookup, hp] at h
    · simp only [alookup, hp, if_false, List.cons_append] at h ⊢
      exact ih h

/-- Appending a binding for one key leaves other lookups unchanged. -/
theorem alookupAppendOther {β : Type} (m : List (String × β))
    (k q : String) (v : β) (h : q ≠ k) :
    alookup (m ++ [(k, v)]) q = alookup m q := by
  induction m with
  | nil => simp [alookup, Ne.symm h]
  | cons p rest ih =>
    obtain ⟨a, b⟩ := p
    by_cases hp : a = q
    · simp [alookup, hp]
    · simp [alookup, hp, ih]

/-- `upsert` binds the written key to the written value. -/
theorem alookupUpsertSelf {β : Type} (m : List (String × β)) (k : String)
    (v : β) : alookup (upsert m k v) k = some v := by
  unfold upsert
  cases hm : (alookup m k).isSome with
  | true => simp [hm, alookupMapUpdateSelf]
  | false =>
    simp only [hm, Bool.false_eq_true, if_false]
    exact alookupAppendSelf m k v (by
      cases hx : alookup m k
      · rfl
      · rw [hx] at hm; simp at hm)

/-- `upsert` leaves every other key's binding unchanged. -/
theorem alookupUpsertOther {β : Type} (m : List (String × β))
    (k q : String) (v : β) (h : q ≠ k) :
    alookup (upsert m k v) q = alookup m q := by
  unfold upsert
  cases hm : (alookup m k).isSome with
  | true => simp [hm, alookupMapUpdateOther m k q v h]
  | false => simp [hm, alookupAppendOther m k q v h]

/-- Claim C10: toggling a store's favourite twice restores its displayed
flag (`favorites[name] || false`), and a single toggle leaves every other
store's displayed flag unchanged. -/
theorem c10_toggle_involution (s : AppState) (storeName other : String)
    (h : other ≠ storeName) :
    favTruthy (toggleFavorite (toggleFavorite s storeName) storeName).favorites
        storeName = favTruthy s.favorites storeName ∧
      favTruthy (toggleFavorite s storeName).favorites other =
        favTruthy s.favorites other := by
  constructor
  · simp [toggleFavorite, favTruthy, alookupUpsertSelf]
  · simp [toggleFavorite, favTruthy, alookupUpsertOther _ _ _ _ h]

theorem c10_toggle_involution_witness :
    favTruthy (toggleFavorite (toggleFavorite ⟨[("Espresso a Mano", true)], []⟩
        "Espresso a Mano") "Espresso a Mano").favorites "Espresso a Mano" =
      favTruthy [("Espresso a Mano", true)] "Espresso a Mano" ∧
    favTruthy (toggleFavorite ⟨[("Espresso a Mano", true)], []⟩
        "Espresso a Mano").favorites "Crazy Mocha" =
      favTruthy [("Espresso a Mano", true)] "Crazy Mocha" :=
  c10_toggle_involution ⟨[("Espresso a Mano", true)], []⟩ "Espresso a Mano"
    "Crazy Mocha" (by decide)

/-- Rebuilding a string from its characters is the identity. -/
theorem asStringData (s : String) : s.data.asString = s := rfl

/-- Scanning a quote-free key body stops at the closing quote. -/
theorem scanKeyAppend (k rest : List Char) (h : ∀ c ∈ k, c ≠ '"') :
    scanKey (k ++ '"' :: rest) = some (k, rest) := by
  induction k with
  | nil => simp [scanKey]
  | cons c cs ih =>
    have hc : c ≠ '"' := h c (List.mem_cons_self _ _)
    simp [scanKey, hc, ih (fun d hd => h d (List.mem_cons_of_mem _ hd))]

/-- The serialised boolean literal parses back to itself. -/
theorem parseBoolTokAppend (b : Bool) (rest : List Char) :
    parseBoolTok ((if b then ['t', 'r', 'u', 'e']
      else ['f', 'a', 'l', 's', 'e']) ++ rest) = some (b, rest) := by
  cases b <;> rfl

/-- A single serialised member followed by the closing brace parses back. -/
theorem parseMembersOne (k : String) (b : Bool) (f : Nat)
    (hk : ∀ c ∈ k.data, c ≠ '"') :
    parseMembers (f + 1) (bodyChars [(k, b)]) = some ([(k, b)], []) := by
  simp only [bodyChars, pairChars, List.cons_append, List.append_assoc]
  simp only [parseMembers]
  rw [scanKeyAppend k.data (':' :: ((if b = true then ['t', 'r', 'u', 'e']
      else ['f', 'a', 'l', 's', 'e']) ++ ['\x7d'])) hk]
  simp only []
  rw [parseBoolTokAppend]
  simp [asStringData]

/-- A serialised member followed by a comma and further members parses
back on top of them. -/
theorem parseMembersCons (k : String) (b : Bool) (q : String × Bool)
    (ps : List (String × Bool)) (f : Nat)
    (hk : ∀ c ∈ k.data, c ≠ '"')
    (ih : parseMembers f (bodyChars (q :: ps)) = some (q :: ps, [])) :
    parseMembers (f + 1) (bodyChars ((k, b) :: q :: ps)) =
      some ((k, b) :: q :: ps, []) := by
  simp only [bodyChars, pairChars, List.cons_append, List.append_assoc]
  simp only [parseMembers]
  rw [scanKeyAppend k.data (':' :: ((if b = true then ['t', 'r', 'u', 'e']
      else ['f', 'a', 'l', 's', 'e']) ++ ',' :: bodyChars (q :: ps))) hk]
  simp only []
  rw [parseBoolTokAppend]
  simp [ih, asStringData]

/-- Each serialised member occupies at least one character. -/
theorem bodyCharsLength (m : List (String × Bool)) :
    m.length ≤ (bodyChars m).length := by
  induction m with
  | nil => simp [bodyChars]
  | cons p rest ih =>
    cases rest with
    | nil => simp [bodyChars, pairChars]
    | cons q ps =>
      have h1 : 1 ≤ (pairChars p).length := by simp [pairChars]
      simp only [bodyChars, List.length_append, List.length_cons] at ih ⊢
      omega

/-- With enough fuel, the serialised member list parses back exactly. -/
theorem parseMembersBody : ∀ (m : List (String × Bool)) (fuel : Nat),
    m ≠ [] → m.length ≤ fuel →
    (∀ p ∈ m, ∀ c ∈ (p.1 : String).data, c ≠ '"') →
    parseMembers fuel (bodyChars m) = some (m, []) := by
  intro m
  induction m with
  | nil => intro fuel hm _ _; simp at hm
  | cons p rest ih =>
    intro fuel _ hfuel hkeys
    obtain ⟨k, b⟩ := p
    cases fuel with
    | zero => simp at hfuel
    | succ f =>
      have hk : ∀ c ∈ k.data, c ≠ '"' := hkeys (k, b) (List.mem_cons_self _ _)
      cases rest with
      | nil => exact parseMembersOne k b f hk
      | cons q ps =>
        have hih := ih f (by simp) (by simp at hfuel ⊢; omega)
          (fun p hp => hkeys p (List.mem_cons_of_mem _ hp))
        exact parseMembersCons k b q ps f hk hih

/-- Round trip: stringifying a favorites map whose keys contain no quote
character and parsing the result recovers the map. -/
theorem parseFavsStringify (m : List (String × Bool))
    (hkeys : ∀ p ∈ m, ∀ c ∈ (p.1 : String).data, c ≠ '"') :
    parseFavs (stringifyFavs m) = some m := by
  cases m with
  | nil => rfl
  | cons p rest =>
    have hdata : (stringifyFavs (p :: rest)).data =
      '\x7b' :: bodyChars (p :: rest) := rfl
    unfold parseFavs
    rw [hdata]
    have hne : bodyChars (p :: rest) ≠ ['\x7d'] := by
      cases rest <;> simp [bodyChars, pairChars]
    have hlen : (p :: rest).length ≤ (bodyChars (p :: rest)).length :=
      bodyCharsLength (p :: rest)
    simp only [if_pos rfl, if_neg hne]
    rw [parseMembersBody (p :: rest) (bodyChars (p :: rest)).length
      (by simp) hlen hkeys]
    simp

/-- Every entry of an upsert either carries the written key or was already
in the map. -/
theorem upsertMemKeys {β : Type} (m : List (String × β)) (k : String) (v : β) :
    ∀ p ∈ upsert m k v, p.1 = k ∨ p ∈ m := by
  unfold upsert
  intro p hp
  cases hm : (alookup m k).isSome with
  | true =>
    rw [hm, if_pos rfl] at hp
    rcases List.mem_map.mp hp with ⟨q, hq, hfq⟩
    obtain ⟨a, b⟩ := q
    by_cases ha : a = k
    all_goals
      have hfq2 : (if a = k then (k, v) else (a, b)) = p := hfq
    · left
      rw [if_pos ha] at hfq2
      rw [← hfq2]
    · right
      rw [if_neg ha] at hfq2
      rw [← hfq2]
      exact hq
  | false =>
    rw [hm] at hp
    simp only [Bool.false_eq_true, if_false] at hp
    rcases List.mem_append.mp hp with hq | hq
    · right; exact hq
    · left
      rcases List.mem_singleton.mp hq with rfl
      rfl

/-- Claim C4: favourite marking persists under the single key
`favorites` — after a toggle the stored string is the stringified
in-memory map (and its JSON value is that map), every other storage key is
untouched, and on initialisation the in-memory map is the parsed value of
the key, the empty map when the key is absent.  Keys are assumed free of
the quote character, the only case the embedded serialiser models. -/
theorem c4_favorites_persistence (s : AppState) (storeName : String)
    (hkeys : ∀ p ∈ s.favorites, ∀ c ∈ (p.1 : String).data, c ≠ '"')
    (hname : ∀ c ∈ storeName.data, c ≠ '"') :
    (storageGet (toggleFavorite s storeName).storage "favorites" =
        some (stringifyFavs (toggleFavorite s storeName).favorites)) ∧
      parseFavs (stringifyFavs (toggleFavorite s storeName).favorites) =
        some (toggleFavorite s storeName).favorites ∧
      (∀ k, k ≠ "favorites" →
        storageGet (toggleFavorite s storeName).storage k =
          storageGet s.storage k) ∧
      (∀ storage : List (String × String),
        storageGet storage "favorites" = none →
          initFavorites storage = .ok []) ∧
      (∀ (storage : List (String × String)) (v : String)
          (m : List (String × Bool)), storageGet storage "favorites" = some v →
        parseFavs v = some m → initFavorites storage = .ok m) := by
  refine ⟨?_, ?_, ?_, ?_, ?_⟩
  · show alookup (upsert s.storage "favorites" _) "favorites" = _
    rw [alookupUpsertSelf]
    rfl
  · apply parseFavsStringify
    intro p hp
    rcases upsertMemKeys s.favorites storeName _ p hp with h1 | h2
    · rw [h1]; exact hname
    · exact hkeys p h2
  · intro k hk
    show alookup (upsert s.storage "favorites" _) k = alookup s.storage k
    rw [alookupUpsertOther _ _ _ _ hk]
  · intro storage h
    unfold initFavorites
    rw [h]
    rfl
  · intro storage v m h hp
    unfold initFavorites
    rw [h]
    show (match parseFavs v with
      | some m => Except.ok m
      | none => Except.error ()) = Except.ok m
    rw [hp]

theorem c4_favorites_persistence_witness :
    (storageGet (toggleFavorite ⟨[("Espresso a Mano", true)], []⟩
        "Crazy Mocha").storage "favorites" =
      some (stringifyFavs (toggleFavorite ⟨[("Espresso a Mano", true)], []⟩
        "Crazy Mocha").favorites)) ∧
      parseFavs (stringifyFavs (toggleFavorite ⟨[("Espresso a Mano", true)], []⟩
          "Crazy Mocha").favorites) =
        some (toggleFavorite ⟨[("Espresso a Mano", true)], []⟩
          "Crazy Mocha").favorites ∧
      (∀ k, k ≠ "favorites" →
        storageGet (toggleFavorite ⟨[("Espresso a Mano", true)], []⟩
            "Crazy Mocha").storage k =
          storageGet (⟨[("Espresso a Mano", true)], []⟩ : AppState).storage k) ∧
      (∀ storage : List (String × String),
        storageGet storage "favorites" = none →
          initFavorites storage = .ok []) ∧
      (∀ (storage : List (String × String)) (v : String)
          (m : List (String × Bool)), storageGet storage "favorites" = some v →
        parseFavs v = some m → initFavorites storage = .ok m) :=
  c4_favorites_persistence ⟨[("Espresso a Mano", true)], []⟩ "Crazy Mocha"
    (by decide) (by decide)

/-- A 4-digit HHMM time string: four decimal digits, valid hour, valid
minute. -/
def validHHMM (s : String) : Bool :=
  match s.data with
  | [a, b, c, d] =>
    isDigitB a && isDigitB b && isDigitB c && isDigitB d &&
      decide (digitVal a * 10 + digitVal b < 24) &&
      decide (digitVal c * 10 + digitVal d < 60)
  | _ => false

/-- Integer value of the first two characters of an HHMM string. -/
def hhVal (s : String) : Nat :=
  match s.data with
  | a :: b :: _ => digitVal a * 10 + digitVal b
  | _ => 0

/-- Integer value of the last two characters of an HHMM string. -/
def mmVal (s : String) : Nat :=
  match s.data with
  | _ :: _ :: c :: d :: _ => digitVal c * 10 + digitVal d
  | _ => 0

/-- Lexicographic comparison of character lists by code point. -/
def lexLt : List Char → List Char → Bool
  | _, [] => false
  | [], _ :: _ => true
  | a :: as, b :: bs =>
    decide (a.toNat < b.toNat) || (decide (a.toNat = b.toNat) && lexLt as bs)

/-- A digit character is not whitespace. -/
theorem digitNotWs (c : Char) (h : isDigitB c = true) : isWsB c = false := by
  simp [isDigitB] at h
  simp [isWsB]
  omega

/-- `parseInt` of a two-digit string is its decimal value. -/
theorem parseIntJSTwoDigits (a b : Char) (ha : isDigitB a = true)
    (hb : isDigitB b = true) :
    parseIntJS [a, b] = some ((digitVal a * 10 + digitVal b : Nat) : Int) := by
  have hna : a ≠ '-' := by
    intro h; rw [h] at ha; exact absurd ha (by decide)
  have hnb : a ≠ '+' := by
    intro h; rw [h] at ha; exact absurd ha (by decide)
  unfold parseIntJS
  rw [show List.dropWhile isWsB [a, b] = [a, b] by
    simp [List.dropWhile, digitNotWs a ha]]
  simp only [hna, hnb, if_false]
  simp [digitsNum, ha, digitsAcc, hb]

/-- Destructuring a valid HHMM string into its four digits. -/
theorem validHHMMShape (s : String) (hs : validHHMM s = true) :
    ∃ a b c d, s.data = [a, b, c, d] ∧ isDigitB a = true ∧ isDigitB b = true ∧
      isDigitB c = true ∧ isDigitB d = true ∧
      digitVal a * 10 + digitVal b < 24 ∧ digitVal c * 10 + digitVal d < 60 := by
  unfold validHHMM at hs
  rcases hl : s.data with _ | ⟨a, _ | ⟨b, _ | ⟨c, _ | ⟨d, _ | ⟨e, l5⟩⟩⟩⟩⟩ <;>
    rw [hl] at hs <;> simp at hs
  exact ⟨a, b, c, d, rfl, by tauto, by tauto, by tauto, by tauto, by tauto, by tauto⟩

/-- A valid HHMM string parses to hours times sixty plus minutes. -/
theorem jsDateOfValid (s : String) (hs : validHHMM s = true) :
    jsDateOf s = some ((hhVal s : Int) * 60 + (mmVal s : Int)) ∧
      hhVal s < 24 ∧ mmVal s < 60 := by
  obtain ⟨a, b, c, d, hl, ha, hb, hc, hd, hhh, hmm⟩ := validHHMMShape s hs
  unfold jsDateOf hhVal mmVal
  rw [hl]
  rw [show jsSubstring [a, b, c, d] 0 2 = [a, b] from rfl,
      show jsSubstring [a, b, c, d] 2 4 = [c, d] from rfl]
  rw [parseIntJSTwoDigits a b ha hb, parseIntJSTwoDigits c d hc hd]
  exact ⟨by simp, hhh, hmm⟩

/-- Strings with equal character lists are equal. -/
theorem stringExt (s t : String) (h : s.data = t.data) : s = t := by
  cases s; cases t; exact congrArg String.mk h

/-- Claim C3: a valid 4-digit HHMM string parses to a timestamp on the
current date whose hour is the value of the first two digits and whose
minute is the value of the last two, and comparing two parsed times
agrees with lexicographic comparison of the strings (both for strict
order and for equality). -/
theorem c3_parse_time (s t : String) (hs : validHHMM s = true)
    (ht : validHHMM t = true) :
    parseTimeToJSDate (some s) =
        .ok (some ((hhVal s : Int) * 60 + (mmVal s : Int))) ∧
      dateGetHours (jsDateOf s) = some (hhVal s) ∧
      dateGetMinutes (jsDateOf s) = some (mmVal s) ∧
      (jsLt (jsDateOf s) (jsDateOf t) = true ↔ lexLt s.data t.data = true) ∧
      (jsDateOf s = jsDateOf t ↔ s = t) := by
  obtain ⟨hds, hhs, hms⟩ := jsDateOfValid s hs
  obtain ⟨hdt, hht, hmt⟩ := jsDateOfValid t ht
  obtain ⟨a, b, c, d, hl, ha, hb, hc, hd, hhh, hmm⟩ := validHHMMShape s hs
  obtain ⟨a1, b1, c1, d1, hl1, ha1, hb1, hc1, hd1, hhh1, hmm1⟩ :=
    validHHMMShape t ht
  have hhval : hhVal s = digitVal a * 10 + digitVal b := by
    unfold hhVal; rw [hl]
  have hmval : mmVal s = digitVal c * 10 + digitVal d := by
    unfold mmVal; rw [hl]
  have hhval1 : hhVal t = digitVal a1 * 10 + digitVal b1 := by
    unfold hhVal; rw [hl1]
  have hmval1 : mmVal t = digitVal c1 * 10 + digitVal d1 := by
    unfold mmVal; rw [hl1]
  have hA : 48 ≤ a.toNat ∧ a.toNat ≤ 57 := by simpa [isDigitB] using ha
  have hB : 48 ≤ b.toNat ∧ b.toNat ≤ 57 := by simpa [isDigitB] using hb
  have hC : 48 ≤ c.toNat ∧ c.toNat ≤ 57 := by simpa [isDigitB] using hc
  have hD : 48 ≤ d.toNat ∧ d.toNat ≤ 57 := by simpa [isDigitB] using hd
  have hA1 : 48 ≤ a1.toNat ∧ a1.toNat ≤ 57 := by simpa [isDigitB] using ha1
  have hB1 : 48 ≤ b1.toNat ∧ b1.toNat ≤ 57 := by simpa [isDigitB] using hb1
  have hC1 : 48 ≤ c1.toNat ∧ c1.toNat ≤ 57 := by simpa [isDigitB] using hc1
  have hD1 : 48 ≤ d1.toNat ∧ d1.toNat ≤ 57 := by simpa [isDigitB] using hd1
  refine ⟨?_, ?_, ?_, ?_, ?_⟩
  · simp [parseTimeToJSDate, hds]
  · rw [hds]
    simp only [dateGetHours, Option.map]
    congr 1
    omega
  · rw [hds]
    simp only [dateGetMinutes, Option.map]
    congr 1
    omega
  · rw [hds, hdt, hl, hl1]
    simp only [jsLt, lexLt, decide_eq_true_eq, Bool.or_eq_true,
      Bool.and_eq_true]
    rw [hhval, hmval, hhval1, hmval1]
    unfold digitVal at hhh hmm hhh1 hmm1 ⊢
    simp only [Bool.false_eq_true, and_false, or_false]
    omega
  · constructor
    · intro he
      rw [hds, hdt] at he
      simp only [Option.some.injEq] at he
      rw [hhval, hmval, hhval1, hmval1] at he
      simp only [digitVal] at he
      have heq : a.toNat = a1.toNat ∧ b.toNat = b1.toNat ∧
          c.toNat = c1.toNat ∧ d.toNat = d1.toNat := by
        unfold digitVal at hhh hmm hhh1 hmm1
        omega
      apply stringExt
      rw [hl, hl1, charEqOfToNatEq heq.1, charEqOfToNatEq heq.2.1,
        charEqOfToNatEq heq.2.2.1, charEqOfToNatEq heq.2.2.2]
    · intro he
      rw [he]

theorem c3_parse_time_witness :
    parseTimeToJSDate (some "0900") =
        .ok (some ((hhVal "0900" : Int) * 60 + (mmVal "0900" : Int))) ∧
      dateGetHours (jsDateOf "0900") = some (hhVal "0900") ∧
      dateGetMinutes (jsDateOf "0900") = some (mmVal "0900") ∧
      (jsLt (jsDateOf "0900") (jsDateOf "1700") = true ↔
        lexLt "0900".data "1700".data = true) ∧
      (jsDateOf "0900" = jsDateOf "1700" ↔ "0900" = "1700") :=
  c3_parse_time "0900" "1700" (by decide) (by decide)
